import Mathlib

/-!
# Verification of the chip8rust interpreter core

Shallow embedding of the CHIP-8 interpreter from `src/main.rs`, `src/types.rs`
and `src/helpers.rs`.  Machine integers are modelled as `Nat` with explicit
`% 2^w` where the Rust code wraps; fallible operations (out-of-bounds panics,
arithmetic-overflow panics of a debug build, and the `todo!` placeholders of
the source) are modelled with `Option`, where `none` stands for a panic.
The external random source and the SDL keyboard state are passed to `step`
as explicit parameters.
-/

namespace Chip8R

/-- `helpers.rs`: the two-valued pixel colour. `Black` is the cleared state. -/
inductive Color : Type where
  | White : Color
  | Black : Color
deriving DecidableEq, Repr

/-- `helpers.rs` `impl Not for Color`. -/
def Color.flip : Color → Color
  | Color.White => Color.Black
  | Color.Black => Color.White

/-- `types.rs` `Registers([u8; 0x10])`: sixteen byte registers. -/
abbrev Registers : Type := Fin 16 → Nat

/-- `types.rs` `struct CPU`.  The `Arc<AtomicU8>` timer cells `dt`, `st` are
modelled as plain state fields; the 60 Hz callback that decrements them is
modelled separately as `timer_callback`. -/
structure CPU : Type where
  v : Registers
  i : Nat
  pc : Nat
  dt : Nat
  st : Nat

/-- `impl Default for CPU`: zero registers and timers, `pc = 0x200`. -/
def CPU.init : CPU := { v := fun _ => 0, i := 0, pc := 0x200, dt := 0, st := 0 }

/-- Register read `self.cpu.v[x]`.  Every register index in the source is a
4-bit instruction field, so the `% 16` is the identity at every call site. -/
def CPU.V (c : CPU) (x : Nat) : Nat := c.v ⟨x % 16, Nat.mod_lt _ (by decide)⟩

/-- Register write `self.cpu.v[x] = w` (same remark on `% 16`). -/
def CPU.setV (c : CPU) (x w : Nat) : CPU :=
  { c with v := Function.update c.v ⟨x % 16, Nat.mod_lt _ (by decide)⟩ w }

/-- `types.rs` `struct Stack`: `[u16; 100]` plus a `u8` stack pointer. -/
structure Stack : Type where
  memory : Fin 100 → Nat
  sp : Nat

def Stack.init : Stack := { memory := fun _ => 0, sp := 0 }

/-- Indexing `self.stack.memory[idx]` for reading: panics out of bounds. -/
def Stack.read (st : Stack) (idx : Nat) : Option Nat :=
  if h : idx < 100 then some (st.memory ⟨idx, h⟩) else none

/-- Indexing `self.stack.memory[idx]` for writing: panics out of bounds. -/
def Stack.write (st : Stack) (idx w : Nat) : Option Stack :=
  if h : idx < 100 then
    some { st with memory := Function.update st.memory ⟨idx, h⟩ w }
  else none

/-- `types.rs` `struct Display([[Color; 32]; 64])`. -/
structure Display : Type where
  grid : Fin 64 → Fin 32 → Color

def Display.init : Display := { grid := fun _ _ => Color.Black }

/-- `Display::set_pixel`: XOR-toggle one pixel and report whether it became
`Black` (a set pixel was unset).  `self[(x, y)]` panics when `x ≥ 64` or
`y ≥ 32`, hence the `Option`. -/
def Display.set_pixel (d : Display) (x y : Nat) : Option (Display × Bool) :=
  if h : x < 64 ∧ y < 32 then
    let nc := (d.grid ⟨x, h.1⟩ ⟨y, h.2⟩).flip
    some ({ grid := fun a b => if a.val = x ∧ b.val = y then nc else d.grid a b },
          decide (nc = Color.Black))
  else none

/-- Total pixel accessor used to state theorems: the colour at `(a, b)`,
`Black` outside the 64×32 grid. -/
def Display.pix (d : Display) (a b : Nat) : Color :=
  if h : a < 64 ∧ b < 32 then d.grid ⟨a, h.1⟩ ⟨b, h.2⟩ else Color.Black

/-- `types.rs` `struct Memory([u8; 0x1000])`. -/
structure Memory : Type where
  data : Fin 4096 → Nat

/-- Reading `self.memory[a]`: panics for `a ≥ 0x1000`. -/
def Memory.read (m : Memory) (a : Nat) : Option Nat :=
  if h : a < 4096 then some (m.data ⟨a, h⟩) else none

/-- The raw point update underlying `IndexMut` for `Memory`. -/
def Memory.set (m : Memory) (a w : Nat) : Memory :=
  { data := fun q => if q.val = a then w else m.data q }

/-- Writing `self.memory[a] = w`: panics for `a ≥ 0x1000`. -/
def Memory.write (m : Memory) (a w : Nat) : Option Memory :=
  if a < 4096 then some (m.set a w) else none

/-- The all-zero byte array `Self([0; 0x1000])`. -/
def Memory.zero : Memory := { data := fun _ => 0 }

/-- `Memory::FONT`: 16 glyphs of 5 bytes each. -/
def Memory.FONT : List Nat :=
  [0xF0, 0x90, 0x90, 0x90, 0xF0,
   0x20, 0x60, 0x20, 0x20, 0x70,
   0xF0, 0x10, 0xF0, 0x80, 0xF0,
   0xF0, 0x10, 0xF0, 0x10, 0xF0,
   0x90, 0x90, 0xF0, 0x10, 0x10,
   0xF0, 0x80, 0xF0, 0x10, 0xF0,
   0xF0, 0x80, 0xF0, 0x90, 0xF0,
   0xF0, 0x10, 0x20, 0x40, 0x40,
   0xF0, 0x90, 0xF0, 0x90, 0xF0,
   0xF0, 0x90, 0xF0, 0x10, 0xF0,
   0xF0, 0x90, 0xF0, 0x90, 0x90,
   0xE0, 0x90, 0xE0, 0x90, 0xE0,
   0xF0, 0x80, 0x80, 0x80, 0xF0,
   0xE0, 0x90, 0x90, 0x90, 0xE0,
   0xF0, 0x80, 0xF0, 0x80, 0xF0,
   0xF0, 0x80, 0xF0, 0x80, 0x80]

/-- The write loop `for (i, b) in bytes.enumerate { me[a0 + i] = b }` as a
recursion on the byte list with a running address.  Used with all addresses
in bounds (`Memory.set` is the in-bounds meaning of the indexed write). -/
def Memory.setList (m : Memory) (a : Nat) : List Nat → Memory
  | [] => m
  | b :: bs => Memory.setList (m.set a b) (a + 1) bs

/-- The same write loop through the panicking (`Option`) write, for loops
whose addresses are not known in advance to be in bounds. -/
def Memory.storeList (m : Memory) (a : Nat) : List Nat → Option Memory
  | [] => some m
  | b :: bs =>
    match m.write a b with
    | none => none
    | some m1 => Memory.storeList m1 (a + 1) bs

/-- `impl Default for Memory`: zero bytes with the font copied to
`0x50 + i` for each of the 80 font bytes (all addresses in bounds). -/
def Memory.default : Memory := Memory.zero.setList 0x50 Memory.FONT

/-- `Memory::digit`: base address of the glyph for a hex digit. -/
def Memory.digit (d : Nat) : Nat := 0x50 + d * 5

/-- `Instruction::get_quater`: nibble `idx` (0 = most significant). -/
def quarter (w idx : Nat) : Nat := (w >>> (16 - (idx + 1) * 4)) &&& 0xF

/-- `Instruction::get_addr`: the low 12 bits. -/
def get_addr (w : Nat) : Nat := w &&& 0xFFF

/-- `Instruction::get_byte`: the low byte (`self.0 as u8`). -/
def get_byte (w : Nat) : Nat := w % 256

/-- Checked `u8` arithmetic result: a debug build panics past 255. -/
def chk8 (n : Nat) : Option Nat := if n ≤ 255 then some n else none

/-- Checked `u16` arithmetic result: a debug build panics past 65535. -/
def chk16 (n : Nat) : Option Nat := if n ≤ 65535 then some n else none

/-- `main.rs` `struct Chip8`. -/
structure Chip8 : Type where
  cpu : CPU
  stack : Stack
  display : Display
  memory : Memory

/-- `Chip8::new` / `Default`. -/
def Chip8.new : Chip8 :=
  { cpu := CPU.init
    stack := Stack.init
    display := Display.init
    memory := Memory.default }

/-- `Chip8::from_game`: reject images longer than `0x800` bytes, otherwise
copy byte `i` to `memory[i + pc]` with `pc = 0x200`.  The `none` case of the
copy loop (an out-of-bounds index, impossible here) is kept as a distinct
panic result. -/
def Chip8.from_game (game : List Nat) : Except String Chip8 :=
  let me := Chip8.new
  if game.length > 0x800 then
    Except.error "Length of file should be not more than 2kb"
  else
    match me.memory.storeList me.cpu.pc game with
    | some m => Except.ok { me with memory := m }
    | none => Except.error "panic: memory index out of bounds"

/-- `Chip8::read_inst`: big-endian 16-bit fetch of `memory[addr]`,
`memory[addr + 1]` (the `addr + 1` is a checked `u16` addition). -/
def Chip8.read_inst (s : Chip8) (addr : Nat) : Option Nat :=
  match s.memory.read addr with
  | none => none
  | some hi =>
    match chk16 (addr + 1) with
    | none => none
    | some a1 =>
      match s.memory.read a1 with
      | none => none
      | some lo => some (hi * 256 + lo)

/-- `Chip8::math`: the `8XY_` ALU group.  Cases `7`, `E` and the default are
`todo!` in the source, i.e. they panic. -/
def Chip8.math (s : Chip8) (inst : Nat) : Option Chip8 :=
  let x := quarter inst 1
  let y := quarter inst 2
  let op := quarter inst 3
  if op = 0 then some { s with cpu := s.cpu.setV x (s.cpu.V y) }
  else if op = 1 then some { s with cpu := s.cpu.setV x (s.cpu.V x ||| s.cpu.V y) }
  else if op = 2 then some { s with cpu := s.cpu.setV x (s.cpu.V x &&& s.cpu.V y) }
  else if op = 3 then some { s with cpu := s.cpu.setV x (s.cpu.V x ^^^ s.cpu.V y) }
  else if op = 4 then
    -- carry test on the original values, then wrapping add, then the flag
    let carry := s.cpu.V x + s.cpu.V y > 0xFF
    let c1 := s.cpu.setV x ((s.cpu.V x + s.cpu.V y) % 256)
    some { s with cpu := c1.setV 0xF (if carry then 0x01 else 0x00) }
  else if op = 5 then
    -- registers hold bytes, for which `wrapping_sub a b = (a + 256 - b) % 256`
    let borrow := s.cpu.V x < s.cpu.V y
    let c1 := s.cpu.setV x ((s.cpu.V x + 256 - s.cpu.V y) % 256)
    some { s with cpu := c1.setV 0xF (if borrow then 0x00 else 0x01) }
  else if op = 6 then
    let c1 := s.cpu.setV 0xF (s.cpu.V y % 2)
    let c2 := c1.setV y (c1.V y >>> 1)
    some { s with cpu := c2.setV x (c2.V y) }
  else none

/-- The loop body of `draw_sprite` for row `i`, bit `j`: read the sprite
byte at `I + i` (checked `u16` add, then the panicking index), and when bit
`j` is set toggle pixel `(x + 7 - j, y + i)` (both coordinate additions are
checked `u8` arithmetic), recording a set-to-unset transition in `V[0xF]`. -/
def Chip8.draw_body (x y i : Nat) (s : Chip8) (j : Nat) : Option Chip8 :=
  match chk16 (s.cpu.i + i) with
  | none => none
  | some addr =>
    match s.memory.read addr with
    | none => none
    | some b =>
      if b &&& (1 <<< j) ≠ 0 then
        match chk8 (x + 7), chk8 (y + i) with
        | some cx, some cy =>
          match s.display.set_pixel (cx - j) cy with
          | none => none
          | some (d, hit) =>
            some { s with
                   display := d
                   cpu := if hit then s.cpu.setV 0xF 1 else s.cpu }
        | _, _ => none
      else some s

/-- `for k in [start, start + cnt)` over a fallible body. -/
def forLoop (f : Chip8 → Nat → Option Chip8) (s : Chip8) (start cnt : Nat) :
    Option Chip8 :=
  match cnt with
  | 0 => some s
  | c + 1 =>
    match f s start with
    | none => none
    | some t => forLoop f t (start + 1) c

/-- One row of `draw_sprite`: `for j in 0..8`. -/
def Chip8.draw_row (x y : Nat) (s : Chip8) (i : Nat) : Option Chip8 :=
  forLoop (Chip8.draw_body x y i) s 0 8

/-- `Chip8::draw_sprite`: clear `V[0xF]`, then `for i in 0..n` over rows. -/
def Chip8.draw_sprite (s : Chip8) (x y n : Nat) : Option Chip8 :=
  forLoop (Chip8.draw_row x y) { s with cpu := s.cpu.setV 0xF 0 } 0 n

/-- The body of the `FX65` register-fill loop. -/
def Chip8.fx65_body (s : Chip8) (i : Nat) : Option Chip8 :=
  match chk16 (s.cpu.i + i) with
  | none => none
  | some a =>
    match s.memory.read a with
    | none => none
    | some b => some { s with cpu := s.cpu.setV i b }

/-- `Chip8::io`: the `FX__` group.  `0A`, `1E`, `55` and the default are
`todo!`, i.e. they panic. -/
def Chip8.io (s : Chip8) (inst : Nat) : Option Chip8 :=
  let half := get_byte inst
  let x := quarter inst 1
  if half = 0x07 then some { s with cpu := s.cpu.setV x s.cpu.dt }
  else if half = 0x15 then some { s with cpu := { s.cpu with dt := s.cpu.V x } }
  else if half = 0x18 then some { s with cpu := { s.cpu with st := s.cpu.V x } }
  else if half = 0x29 then
    some { s with cpu := { s.cpu with i := Memory.digit (s.cpu.V x) } }
  else if half = 0x33 then
    match chk16 (s.cpu.i + 2) with
    | none => none
    | some a2 =>
      match s.memory.write a2 (s.cpu.V x % 10) with
      | none => none
      | some m1 =>
        match chk16 (s.cpu.i + 1) with
        | none => none
        | some a1 =>
          match m1.write a1 (s.cpu.V x / 10 % 10) with
          | none => none
          | some m2 =>
            match m2.write s.cpu.i (s.cpu.V x / 100) with
            | none => none
            | some m3 => some { s with memory := m3 }
  else if half = 0x65 then forLoop Chip8.fx65_body s 0 (x + 1)
  else none

/-- `Chip8::step`: fetch at `pc`, advance `pc` by 2 (checked `u16` add),
dispatch on the top nibble.  `kbd` abstracts the SDL keyboard state composed
with the scancode mapping of `Keyboard::is_pressed` (whose `unreachable!`
for a key value above `0xF` is a panic); `rnd` is the byte produced by
`rand::random` for `CXNN`.  Every `todo!` arm of the source is `none`. -/
def Chip8.step (s0 : Chip8) (kbd : Nat → Bool) (rnd : Nat) : Option Chip8 :=
  match s0.read_inst s0.cpu.pc with
  | none => none
  | some inst =>
    match chk16 (s0.cpu.pc + 2) with
    | none => none
    | some pc2 =>
      let s : Chip8 := { s0 with cpu := { s0.cpu with pc := pc2 } }
      let q0 := quarter inst 0
      if q0 = 0x0 then
        if inst = 0x00E0 then none -- `Display::clear` is `todo!`: panic
        else if inst = 0x00EE then
          if s.stack.sp ≥ 2 then -- `sp -= 2` underflows (panics) otherwise
            match s.stack.read (s.stack.sp - 2) with
            | none => none
            | some r =>
              some { s with
                     cpu := { s.cpu with pc := r }
                     stack := { s.stack with sp := s.stack.sp - 2 } }
          else none
        else none -- machine-language subroutine: `todo!`
      else if q0 = 0x1 then
        some { s with cpu := { s.cpu with pc := get_addr inst } }
      else if q0 = 0x2 then
        match s.stack.write s.stack.sp s.cpu.pc with
        | none => none
        | some st =>
          some { s with
                 stack := { st with sp := st.sp + 2 }
                 cpu := { s.cpu with pc := get_addr inst } }
      else if q0 = 0x3 then
        if s.cpu.V (quarter inst 1) = get_byte inst then
          match chk16 (s.cpu.pc + 2) with
          | none => none
          | some pc4 => some { s with cpu := { s.cpu with pc := pc4 } }
        else some s
      else if q0 = 0x4 then
        if s.cpu.V (quarter inst 1) ≠ get_byte inst then
          match chk16 (s.cpu.pc + 2) with
          | none => none
          | some pc4 => some { s with cpu := { s.cpu with pc := pc4 } }
        else some s
      else if q0 = 0x5 then
        if s.cpu.V (quarter inst 1) = s.cpu.V (quarter inst 2) then
          match chk16 (s.cpu.pc + 2) with
          | none => none
          | some pc4 => some { s with cpu := { s.cpu with pc := pc4 } }
        else some s
      else if q0 = 0x6 then
        some { s with cpu := s.cpu.setV (quarter inst 1) (get_byte inst) }
      else if q0 = 0x7 then
        some { s with cpu := (s.cpu.setV (quarter inst 1)
                 ((s.cpu.V (quarter inst 1) + get_byte inst) % 256)) }
      else if q0 = 0x8 then s.math inst
      else if q0 = 0x9 then none -- `9XY0` (and any other `9___`): `todo!`
      else if q0 = 0xA then
        some { s with cpu := { s.cpu with i := get_addr inst } }
      else if q0 = 0xB then none -- `BNNN`: `todo!`
      else if q0 = 0xC then
        let c1 := s.cpu.setV (quarter inst 1) (rnd % 256)
        some { s with cpu :=
                 c1.setV (quarter inst 1) (c1.V (quarter inst 1) &&& get_byte inst) }
      else if q0 = 0xD then
        s.draw_sprite (s.cpu.V (quarter inst 1)) (s.cpu.V (quarter inst 2))
          (quarter inst 3)
      else if q0 = 0xE then
        if get_byte inst = 0x9E then none -- `EX9E`: `todo!`
        else if get_byte inst = 0xA1 then
          if s.cpu.V (quarter inst 1) < 16 then
            if kbd (s.cpu.V (quarter inst 1)) then some s
            else
              match chk16 (s.cpu.pc + 2) with
              | none => none
              | some pc4 => some { s with cpu := { s.cpu with pc := pc4 } }
          else none -- `unreachable!` in the scancode mapping: panic
        else none -- unknown instruction: `todo!`
      else if q0 = 0xF then s.io inst
      else none

/-- `main.rs` `timer_callback`: one 60 Hz tick on the (delay, sound) pair;
each counter is decremented only when positive. -/
def timer_callback (dt st : Nat) : Nat × Nat :=
  ((if dt > 0 then dt - 1 else dt), (if st > 0 then st - 1 else st))

/-- `n` consecutive 60 Hz ticks. -/
def ticks (n : Nat) (p : Nat × Nat) : Nat × Nat :=
  match n with
  | 0 => p
  | m + 1 => ticks m (timer_callback p.1 p.2)

/-! ## Basic facts about registers and instruction fields -/

theorem quarter_lt (w idx : Nat) : quarter w idx < 16 :=
  Nat.lt_succ_of_le (Nat.and_le_right)

theorem V_setV (c : CPU) (x w k : Nat) :
    (c.setV x w).V k = if k % 16 = x % 16 then w else c.V k := by
  simp only [CPU.V, CPU.setV, Function.update_apply, Fin.mk.injEq]

@[simp] theorem setV_i (c : CPU) (x w : Nat) : (c.setV x w).i = c.i := rfl
@[simp] theorem setV_pc (c : CPU) (x w : Nat) : (c.setV x w).pc = c.pc := rfl
@[simp] theorem setV_dt (c : CPU) (x w : Nat) : (c.setV x w).dt = c.dt := rfl
@[simp] theorem setV_st (c : CPU) (x w : Nat) : (c.setV x w).st = c.st := rfl

/-! ## Fixed example states used by the closed (fully evaluated) theorems -/

/-- A fresh machine with `prog` loaded at the entry point 0x200 (what
`from_game` produces for a small image). -/
def mkS (prog : List Nat) : Chip8 :=
  { Chip8.new with memory := Memory.setList Chip8.new.memory 0x200 prog }

/-- Keyboard with no key pressed. -/
def kF : Nat → Bool := fun _ => false

/-- A fresh machine whose register `V[0xF]` holds 5. -/
def cA : Chip8 := { Chip8.new with cpu := Chip8.new.cpu.setV 0xF 5 }

/-- A fresh machine whose register `V[2]` holds 5. -/
def cB : Chip8 := { Chip8.new with cpu := Chip8.new.cpu.setV 2 5 }

/-- A fresh machine not yet executing: `mkS [0x51, 0x20]` with `V[1] = 7`,
so that the `5XY0` comparison `V[1] = V[2]` fails. -/
def c5n : Chip8 := { mkS [0x51, 0x20] with cpu := CPU.init.setV 1 7 }

/-! ## C1: the ALU add opcode 8XY4 -/

/-- C1 (counterexample).  The claim asserts that 8XY4 leaves
`V[X] = (a+b) mod 256` even when `X = 0xF`.  In the state `cA` with
`V[0xF] = 5` and `V[0] = 0`, executing `8F04` leaves `V[0xF] = 0` (the carry
flag, written last, overwrites the sum), while the claim demands
`(5+0) mod 256 = 5`. -/
theorem alu_add_vf_alias_cex :
    cA.cpu.V 0xF = 5 ∧ cA.cpu.V 0 = 0 ∧
    (Chip8.math cA 0x8F04).map (fun t => t.cpu.V 0xF) = some 0 ∧
    ((5 + 0) % 256 : Nat) ≠ 0 :=
  ⟨rfl, rfl, rfl, by decide⟩

/-- C1 (amended).  For every state and every `8XY4` instruction whose `X`
field is not `0xF`: `V[X]` becomes `(V[X] + V[Y]) mod 256` and `V[0xF]`
becomes 1 exactly when the unsigned sum exceeds 255 (this part holds for
`Y = 0xF` as well; only `X = 0xF` is excluded, where the flag write
overwrites the sum). -/
theorem alu_add_spec (s : Chip8) (inst : Nat)
    (hop : quarter inst 3 = 4) (hx : quarter inst 1 ≠ 15) :
    ∃ t, s.math inst = some t ∧
      t.cpu.V (quarter inst 1) =
        (s.cpu.V (quarter inst 1) + s.cpu.V (quarter inst 2)) % 256 ∧
      t.cpu.V 0xF =
        (if s.cpu.V (quarter inst 1) + s.cpu.V (quarter inst 2) > 0xFF
         then 1 else 0) := by
  have h1 : quarter inst 1 % 16 = quarter inst 1 :=
    Nat.mod_eq_of_lt (quarter_lt inst 1)
  refine ⟨{ s with cpu :=
                     (s.cpu.setV (quarter inst 1)
                         ((s.cpu.V (quarter inst 1) + s.cpu.V (quarter inst 2))
                           % 256)).setV 15
                       (if 255 < s.cpu.V (quarter inst 1) + s.cpu.V (quarter inst 2)
                        then 1 else 0) },
    by simp [Chip8.math, hop], ?_, ?_⟩ <;>
  simp [V_setV, h1, hx, Ne.symm hx]

/-- C1 (witness): the amended theorem applied at `X = 1`, `Y = 2` in the
state `cB` where `V[1] = 0`, `V[2] = 5`. -/
theorem alu_add_spec_example :
    ∃ t, Chip8.math cB 0x8124 = some t ∧
      t.cpu.V (quarter 0x8124 1) =
        (cB.cpu.V (quarter 0x8124 1) + cB.cpu.V (quarter 0x8124 2)) % 256 ∧
      t.cpu.V 0xF =
        (if cB.cpu.V (quarter 0x8124 1) + cB.cpu.V (quarter 0x8124 2) > 0xFF
         then 1 else 0) :=
  alu_add_spec cB 0x8124 (by decide) (by decide)

/-! ## C2: the shift opcode 8XY6 -/

/-- The behaviour the spec ascribes to `8XY6`, written from the spec text:
`V[0xF] = V[Y] & 1`; `V[Y] >>= 1`; `V[X] = V[Y]` — three sequential
updates, the shifted `V[Y]` being what lands in `V[X]`. -/
def shift_spec (c : CPU) (x y : Nat) : CPU :=
  let c1 := c.setV 0xF (c.V y &&& 1)
  let c2 := c1.setV y (c1.V y >>> 1)
  c2.setV x (c2.V y)

/-- C2: executing any `8XY6` instruction performs exactly the three-step
sequence of the spec (`shift_spec`), including the aliasing cases `X = 0xF`,
`Y = 0xF`, `X = Y`; and when `X`, `Y`, `0xF` are pairwise distinct the
result has `V[0xF]` = old `V[Y] mod 2`, and both `V[Y]` and `V[X]` equal old
`V[Y] / 2` (the Y-shifted-then-copied quirk, not shift-X-in-place). -/
theorem shift_right_quirk (s : Chip8) (inst : Nat) (hop : quarter inst 3 = 6) :
    s.math inst =
      some { s with cpu := shift_spec s.cpu (quarter inst 1) (quarter inst 2) } ∧
    (quarter inst 1 ≠ 15 → quarter inst 2 ≠ 15 →
     quarter inst 1 ≠ quarter inst 2 →
      ∃ t, s.math inst = some t ∧
        t.cpu.V 0xF = s.cpu.V (quarter inst 2) % 2 ∧
        t.cpu.V (quarter inst 2) = s.cpu.V (quarter inst 2) / 2 ∧
        t.cpu.V (quarter inst 1) = s.cpu.V (quarter inst 2) / 2) := by
  have h1 : quarter inst 1 % 16 = quarter inst 1 :=
    Nat.mod_eq_of_lt (quarter_lt inst 1)
  have h2 : quarter inst 2 % 16 = quarter inst 2 :=
    Nat.mod_eq_of_lt (quarter_lt inst 2)
  constructor
  · simp [Chip8.math, hop, shift_spec, Nat.and_one_is_mod]
  · intro hx hy hxy
    refine ⟨{ s with cpu :=
                       ((s.cpu.setV 15 (s.cpu.V (quarter inst 2) % 2)).setV
                           (quarter inst 2)
                           ((s.cpu.setV 15 (s.cpu.V (quarter inst 2) % 2)).V
                               (quarter inst 2) >>> 1)).setV
                         (quarter inst 1)
                         (((s.cpu.setV 15 (s.cpu.V (quarter inst 2) % 2)).setV
                               (quarter inst 2)
                               ((s.cpu.setV 15 (s.cpu.V (quarter inst 2) % 2)).V
                                   (quarter inst 2) >>> 1)).V
                           (quarter inst 2)) },
      by simp [Chip8.math, hop], ?_, ?_, ?_⟩ <;>
    simp [V_setV, h1, h2, hx, hy, hxy, Ne.symm hx, Ne.symm hy, Ne.symm hxy,
      Nat.shiftRight_one]

/-- C2 (witness): the theorem applied to `8126` in the state `cB`
(`V[1] = 0`, `V[2] = 5`): afterwards `V[0xF] = 1`, `V[2] = V[1] = 2`. -/
theorem shift_right_quirk_example :
    Chip8.math cB 0x8126 =
      some { cB with
             cpu := shift_spec cB.cpu (quarter 0x8126 1) (quarter 0x8126 2) } ∧
    (quarter 0x8126 1 ≠ 15 → quarter 0x8126 2 ≠ 15 →
     quarter 0x8126 1 ≠ quarter 0x8126 2 →
      ∃ t, Chip8.math cB 0x8126 = some t ∧
        t.cpu.V 0xF = cB.cpu.V (quarter 0x8126 2) % 2 ∧
        t.cpu.V (quarter 0x8126 2) = cB.cpu.V (quarter 0x8126 2) / 2 ∧
        t.cpu.V (quarter 0x8126 1) = cB.cpu.V (quarter 0x8126 2) / 2) :=
  shift_right_quirk cB 0x8126 (by decide)

/-! ## C3: the skip opcodes 3XNN, 4XNN, 5XY0, 9XY0 -/

/-- C3.  The three implemented skip opcodes behave as claimed on concrete
machines: from `pc = 0x200` they land on `0x204` when the condition holds
and `0x202` when it does not.  The fourth, `9XY0`, is a `todo!` in the
source: executing it panics (no successor state) instead of skipping. -/
theorem skip_opcodes_status :
    (Chip8.step (mkS [0x30, 0x00]) kF 0).map (fun t => t.cpu.pc) = some 0x204 ∧
    (Chip8.step (mkS [0x30, 0x05]) kF 0).map (fun t => t.cpu.pc) = some 0x202 ∧
    (Chip8.step (mkS [0x40, 0x05]) kF 0).map (fun t => t.cpu.pc) = some 0x204 ∧
    (Chip8.step (mkS [0x40, 0x00]) kF 0).map (fun t => t.cpu.pc) = some 0x202 ∧
    (Chip8.step (mkS [0x50, 0x10]) kF 0).map (fun t => t.cpu.pc) = some 0x204 ∧
    (Chip8.step c5n kF 0).map (fun t => t.cpu.pc) = some 0x202 ∧
    Chip8.step (mkS [0x91, 0x00]) kF 0 = none :=
  ⟨rfl, rfl, rfl, rfl, rfl, rfl, rfl⟩

/-! ## C6: the clear-screen opcode 00E0 -/

/-- C6.  `Display::clear` is a `todo!` in the source: executing `00E0`
panics instead of clearing the grid — there is no successor state. -/
theorem clear_screen_unimplemented :
    Chip8.step (mkS [0x00, 0xE0]) kF 0 = none := rfl

/-! ## C9: the 60 Hz timer ticks -/

theorem ticks_zero_dt : ∀ (n s : Nat), (ticks n (0, s)).1 = 0
  | 0, _ => rfl
  | n + 1, s => ticks_zero_dt n (if s > 0 then s - 1 else s)

theorem ticks_zero_st : ∀ (n d : Nat), (ticks n (d, 0)).2 = 0
  | 0, _ => rfl
  | n + 1, d => ticks_zero_st n (if d > 0 then d - 1 else d)

/-- C9.  One tick decrements a positive counter by exactly one, never
increases a counter (so an 8-bit counter can never wrap below zero — the
decrement is guarded by a positivity test), and a counter equal to 0 stays
0 after any number of ticks. -/
theorem timer_saturation (d s n : Nat) :
    (0 < d → (timer_callback d s).1 = d - 1) ∧
    (0 < s → (timer_callback d s).2 = s - 1) ∧
    (timer_callback d s).1 ≤ d ∧
    (timer_callback d s).2 ≤ s ∧
    (ticks n (0, s)).1 = 0 ∧
    (ticks n (d, 0)).2 = 0 := by
  refine ⟨fun h => by simp [timer_callback, h], fun h => by simp [timer_callback, h],
    ?_, ?_, ticks_zero_dt n s, ticks_zero_st n d⟩ <;>
  · simp only [timer_callback]
    split <;> omega

/-- C9 (witness): the theorem at `delay = 3`, `sound = 2`, five ticks. -/
theorem timer_saturation_example :
    (timer_callback 3 2).1 = 3 - 1 ∧ (ticks 5 ((0 : Nat), (2 : Nat))).1 = 0 :=
  ⟨(timer_saturation 3 2 5).1 (by decide),
   (timer_saturation 3 2 5).2.2.2.2.1⟩

/-! ## Lookup lemmas for the memory write loops -/

theorem storeList_ok (l : List Nat) : ∀ (m : Memory) (a : Nat),
    a + l.length ≤ 4096 →
    Memory.storeList m a l = some (Memory.setList m a l) := by
  induction l with
  | nil => intro m a _; rfl
  | cons b bs ih =>
    intro m a h
    rw [List.length_cons] at h
    show (match m.write a b with
          | none => none
          | some m1 => Memory.storeList m1 (a + 1) bs) = _
    rw [Memory.write, if_pos (by omega)]
    exact ih _ (a + 1) (by omega)

theorem setList_lookup_lo (l : List Nat) : ∀ (m : Memory) (a : Nat)
    (q : Fin 4096), q.val < a → (Memory.setList m a l).data q = m.data q := by
  induction l with
  | nil => intro m a q _; rfl
  | cons b bs ih =>
    intro m a q h
    show (Memory.setList (m.set a b) (a + 1) bs).data q = _
    rw [ih _ (a + 1) q (by omega)]
    show (if q.val = a then b else m.data q) = m.data q
    rw [if_neg (by omega)]

theorem setList_lookup (l : List Nat) : ∀ (m : Memory) (a : Nat)
    (q : Fin 4096), a ≤ q.val → q.val < a + l.length →
    (Memory.setList m a l).data q = l.getD (q.val - a) 0 := by
  induction l with
  | nil => intro m a q h1 h2; rw [List.length_nil] at h2; omega
  | cons b bs ih =>
    intro m a q h1 h2
    rw [List.length_cons] at h2
    show (Memory.setList (m.set a b) (a + 1) bs).data q = _
    by_cases hq : q.val = a
    · rw [setList_lookup_lo bs _ (a + 1) q (by omega)]
      show (if q.val = a then b else m.data q) = _
      rw [if_pos hq, hq, Nat.sub_self]
      rfl
    · rw [ih _ (a + 1) q (by omega) (by omega)]
      rw [show q.val - a = (q.val - (a + 1)) + 1 by omega]
      rfl

/-! ## C7: program loading bounds -/

/-- C7.  Loading succeeds exactly when the image has at most 0x800 bytes: a
small enough image is copied byte for byte to `0x200 + i` (on top of the
freshly initialised machine), and a longer image produces the length error
(returned before any memory write happens). -/
theorem load_bounds (game : List Nat) :
    (game.length ≤ 0x800 →
      Chip8.from_game game =
        Except.ok { Chip8.new with
                    memory := Memory.setList Chip8.new.memory 0x200 game } ∧
      ∀ i, i < game.length →
        (Memory.setList Chip8.new.memory 0x200 game).read (0x200 + i) =
          some (game.getD i 0)) ∧
    (0x800 < game.length →
      Chip8.from_game game =
        Except.error "Length of file should be not more than 2kb") := by
  constructor
  · intro h
    constructor
    · show (if game.length > 0x800 then _ else _) = _
      rw [if_neg (by omega)]
      rw [show Chip8.new.cpu.pc = 0x200 from rfl,
        storeList_ok game _ 0x200 (by omega)]
    · intro i hi
      rw [Memory.read, dif_pos (by omega)]
      rw [setList_lookup game _ 0x200 ⟨0x200 + i, by omega⟩
        (show (0x200 : Nat) ≤ 0x200 + i by omega)
        (show 0x200 + i < 0x200 + game.length by omega)]
      exact congrArg (fun t => some (game.getD t 0))
        (show (0x200 + i) - 0x200 = i by omega)
  · intro h
    show (if game.length > 0x800 then _ else _) = _
    rw [if_pos (by omega)]

/-- C7 (witness): a three-byte image loads with its bytes at 0x200.., and a
2049-byte image is rejected with the length error. -/
theorem load_bounds_example :
    (Chip8.from_game [7, 8, 9] =
      Except.ok { Chip8.new with
                  memory := Memory.setList Chip8.new.memory 0x200 [7, 8, 9] } ∧
     (Memory.setList Chip8.new.memory 0x200 [7, 8, 9]).read (0x200 + 1) =
       some ([7, 8, 9].getD 1 0)) ∧
    Chip8.from_game (List.replicate 2049 0) =
      Except.error "Length of file should be not more than 2kb" :=
  ⟨⟨((load_bounds [7, 8, 9]).1 (by decide)).1,
    ((load_bounds [7, 8, 9]).1 (by decide)).2 1 (by decide)⟩,
   (load_bounds (List.replicate 2049 0)).2
     (by rw [List.length_replicate]; decide)⟩

/-! ## C8: the font region survives program loading -/

/-- C8.  Whenever `from_game` accepts an image, the produced memory still
holds the 80 font bytes at addresses 0x50 through 0x9F: the program is
copied at 0x200 and up, and never reaches the font region. -/
theorem font_preserved (game : List Nat) (c : Chip8)
    (h : Chip8.from_game game = Except.ok c) :
    ∀ k, k < 80 → c.memory.read (0x50 + k) = some (Memory.FONT.getD k 0) := by
  intro k hk
  have hfont : Memory.FONT.length = 80 := rfl
  by_cases hlen : game.length > 0x800
  · rw [show Chip8.from_game game
        = (if game.length > 0x800 then
            Except.error "Length of file should be not more than 2kb"
          else match Memory.storeList Chip8.new.memory Chip8.new.cpu.pc game with
            | some m => Except.ok { Chip8.new with memory := m }
            | none => Except.error "panic: memory index out of bounds")
        from rfl, if_pos hlen] at h
    exact absurd h (by simp)
  · rw [show Chip8.from_game game
        = (if game.length > 0x800 then
            Except.error "Length of file should be not more than 2kb"
          else match Memory.storeList Chip8.new.memory Chip8.new.cpu.pc game with
            | some m => Except.ok { Chip8.new with memory := m }
            | none => Except.error "panic: memory index out of bounds")
        from rfl, if_neg hlen,
      show Chip8.new.cpu.pc = 0x200 from rfl,
      storeList_ok game _ 0x200 (by omega)] at h
    have hc : { Chip8.new with
                memory := Memory.setList Chip8.new.memory 0x200 game } = c :=
      Except.ok.inj h
    rw [← hc]
    show (Memory.setList Chip8.new.memory 0x200 game).read (0x50 + k) = _
    rw [Memory.read, dif_pos (by omega)]
    rw [setList_lookup_lo game _ 0x200 ⟨0x50 + k, by omega⟩
      (show 0x50 + k < 0x200 by omega)]
    rw [show Chip8.new.memory = Memory.zero.setList 0x50 Memory.FONT from rfl]
    rw [setList_lookup Memory.FONT _ 0x50 ⟨0x50 + k, by omega⟩
      (show (0x50 : Nat) ≤ 0x50 + k by omega)
      (show 0x50 + k < 0x50 + Memory.FONT.length by rw [hfont]; omega)]
    exact congrArg (fun t => some (Memory.FONT.getD t 0))
      (show (0x50 + k) - 0x50 = k by omega)

/-- C8 (witness): the loaded empty image keeps the first font byte 0xF0 at
address 0x50. -/
theorem font_preserved_example :
    ({ Chip8.new with
       memory := Memory.setList Chip8.new.memory 0x200 [] } : Chip8).memory.read
        (0x50 + 0) = some (Memory.FONT.getD 0 0) :=
  font_preserved []
    { Chip8.new with memory := Memory.setList Chip8.new.memory 0x200 [] } rfl 0
    (by decide)

/-! ## C5: call and return -/

/-- C5.  In any state about to execute a `2NNN` call (fetched instruction
`inst` with top nibble 2), with room on the stack and a `00EE` return
instruction placed at `NNN`: the call pushes the already-advanced `pc + 2`,
moves the stack pointer up one slot (`sp + 2`), and jumps to `NNN`; the
immediately following return restores `pc` to `pc + 2` and the stack
pointer to its pre-call value. -/
theorem call_ret_roundtrip (s : Chip8) (kbd : Nat → Bool) (rnd : Nat)
    (inst : Nat)
    (hfetch : s.read_inst s.cpu.pc = some inst)
    (hq : quarter inst 0 = 2)
    (hpc : s.cpu.pc + 2 ≤ 65535)
    (hsp : s.stack.sp < 100)
    (hm0 : s.memory.read (get_addr inst) = some 0x00)
    (hm1 : s.memory.read (get_addr inst + 1) = some 0xEE) :
    ∃ s1 s2, Chip8.step s kbd rnd = some s1 ∧
      s1.cpu.pc = get_addr inst ∧
      s1.stack.sp = s.stack.sp + 2 ∧
      s1.stack.read s.stack.sp = some (s.cpu.pc + 2) ∧
      Chip8.step s1 kbd rnd = some s2 ∧
      s2.cpu.pc = s.cpu.pc + 2 ∧
      s2.stack.sp = s.stack.sp := by
  have ha : get_addr inst ≤ 0xFFF := Nat.and_le_right
  have hc1 : chk16 (s.cpu.pc + 2) = some (s.cpu.pc + 2) := by
    rw [chk16, if_pos hpc]
  have hc2 : chk16 (get_addr inst + 1) = some (get_addr inst + 1) := by
    rw [chk16, if_pos (by omega)]
  have hc3 : chk16 (get_addr inst + 2) = some (get_addr inst + 2) := by
    rw [chk16, if_pos (by omega)]
  have hw : s.stack.write s.stack.sp (s.cpu.pc + 2) =
      some { s.stack with
             memory := Function.update s.stack.memory ⟨s.stack.sp, hsp⟩
               (s.cpu.pc + 2) } := by
    rw [Stack.write, dif_pos hsp]
  have hsp2 : (2 : Nat) ≤ s.stack.sp + 2 := by omega
  have hsub : s.stack.sp + 2 - 2 = s.stack.sp := by omega
  refine ⟨{ s with
            cpu := { s.cpu with pc := get_addr inst }
            stack := { memory := Function.update s.stack.memory
                         ⟨s.stack.sp, hsp⟩ (s.cpu.pc + 2)
                       sp := s.stack.sp + 2 } },
    { s with
      cpu := { s.cpu with pc := s.cpu.pc + 2 }
      stack := { memory := Function.update s.stack.memory
                   ⟨s.stack.sp, hsp⟩ (s.cpu.pc + 2)
                 sp := s.stack.sp } },
    ?_, rfl, rfl, ?_, ?_, rfl, rfl⟩
  · simp [Chip8.step, hfetch, hc1, hq, hw]
  · rw [Stack.read, dif_pos hsp]
    simp
  · simp only [Chip8.step, Chip8.read_inst]
    simp only [hm0, hc2, hm1]
    simp [hc3, hsp2, hsub, Stack.read, hsp,
      show quarter 238 0 = 0 from by decide, Function.update_apply]

/-- C5 (witness): the roundtrip on a concrete program: `2208` at 0x200
(call 0x208) and `00EE` at 0x208. -/
theorem call_ret_roundtrip_example :
    ∃ s1 s2,
      Chip8.step (mkS [0x22, 0x08, 0, 0, 0, 0, 0, 0, 0x00, 0xEE]) kF 0 =
          some s1 ∧
      s1.cpu.pc = get_addr 0x2208 ∧
      s1.stack.sp = (mkS [0x22, 0x08, 0, 0, 0, 0, 0, 0, 0x00, 0xEE]).stack.sp + 2 ∧
      s1.stack.read (mkS [0x22, 0x08, 0, 0, 0, 0, 0, 0, 0x00, 0xEE]).stack.sp =
        some ((mkS [0x22, 0x08, 0, 0, 0, 0, 0, 0, 0x00, 0xEE]).cpu.pc + 2) ∧
      Chip8.step s1 kF 0 = some s2 ∧
      s2.cpu.pc = (mkS [0x22, 0x08, 0, 0, 0, 0, 0, 0, 0x00, 0xEE]).cpu.pc + 2 ∧
      s2.stack.sp = (mkS [0x22, 0x08, 0, 0, 0, 0, 0, 0, 0x00, 0xEE]).stack.sp :=
  call_ret_roundtrip (mkS [0x22, 0x08, 0, 0, 0, 0, 0, 0, 0x00, 0xEE]) kF 0
    0x2208 rfl (by decide) (by decide) (by decide) rfl rfl

/-! ## Infrastructure for the draw-sprite proofs (C4 and C10) -/

theorem chk8_some (n m : Nat) (h : chk8 n = some m) : n ≤ 255 ∧ m = n := by
  rw [chk8] at h
  split at h
  · exact ⟨by assumption, (Option.some.inj h).symm⟩
  · exact absurd h (by simp)

theorem chk16_some (n m : Nat) (h : chk16 n = some m) : n ≤ 65535 ∧ m = n := by
  rw [chk16] at h
  split at h
  · exact ⟨by assumption, (Option.some.inj h).symm⟩
  · exact absurd h (by simp)

/-- Whether sprite row `i` of the sprite at `I` has bit `j` set — the test
the draw loop body performs (false when the row byte is unreadable; in that
situation the body panics anyway). -/
def sprite_bit (s : Chip8) (i j : Nat) : Bool :=
  match chk16 (s.cpu.i + i) with
  | none => false
  | some addr =>
    match s.memory.read addr with
    | none => false
    | some b => decide (b &&& (1 <<< j) ≠ 0)

/-- Everything `draw_sprite` leaves untouched: memory, stack, `I`, `pc`,
timers, and every register other than `V[0xF]`. -/
def DrawFrame (s t : Chip8) : Prop :=
  t.memory = s.memory ∧ t.stack = s.stack ∧ t.cpu.i = s.cpu.i ∧
  t.cpu.pc = s.cpu.pc ∧ t.cpu.dt = s.cpu.dt ∧ t.cpu.st = s.cpu.st ∧
  ∀ r : Nat, r % 16 ≠ 15 → t.cpu.V r = s.cpu.V r

theorem drawFrame_refl (s : Chip8) : DrawFrame s s :=
  ⟨rfl, rfl, rfl, rfl, rfl, rfl, fun _ _ => rfl⟩

theorem drawFrame_trans {s t u : Chip8} (h1 : DrawFrame s t)
    (h2 : DrawFrame t u) : DrawFrame s u := by
  obtain ⟨a1, a2, a3, a4, a5, a6, a7⟩ := h1
  obtain ⟨b1, b2, b3, b4, b5, b6, b7⟩ := h2
  exact ⟨b1.trans a1, b2.trans a2, b3.trans a3, b4.trans a4, b5.trans a5,
    b6.trans a6, fun r hr => (b7 r hr).trans (a7 r hr)⟩

theorem sprite_bit_frame {s t : Chip8} (hm : t.memory = s.memory)
    (hi : t.cpu.i = s.cpu.i) (i j : Nat) :
    sprite_bit t i j = sprite_bit s i j := by
  rw [sprite_bit, sprite_bit, hm, hi]

/-- Elementary description of a successful `set_pixel`. -/
theorem set_pixel_some (d : Display) (x y : Nat) (d2 : Display) (fl : Bool)
    (h : d.set_pixel x y = some (d2, fl)) :
    x < 64 ∧ y < 32 ∧
    (∀ a b : Nat,
      d2.pix a b = if a = x ∧ b = y then (d.pix a b).flip else d.pix a b) ∧
    fl = decide (d.pix x y = Color.White) := by
  rw [Display.set_pixel] at h
  split at h
  case isFalse => exact absurd h (by simp)
  case isTrue hb =>
    injection h with h
    rw [Prod.mk.injEq] at h
    obtain ⟨hd, hf⟩ := h
    subst hd
    subst hf
    refine ⟨hb.1, hb.2, ?_, ?_⟩
    · intro a b
      by_cases hin : a < 64 ∧ b < 32
      · by_cases heq : a = x ∧ b = y
        · obtain ⟨rfl, rfl⟩ := heq
          simp [Display.pix, hin]
        · rw [if_neg heq]
          simp only [Display.pix, dif_pos hin]
          rw [if_neg (by simpa using heq)]
      · rw [if_neg (by rintro ⟨rfl, rfl⟩; exact hin hb)]
        simp [Display.pix, hin]
    · cases hcol : d.grid ⟨x, hb.1⟩ ⟨y, hb.2⟩ <;>
        simp [Display.pix, hb, hcol, Color.flip]

/-- Full description of one iteration of the draw loop body. -/
theorem draw_body_some (x y i j : Nat) (s t : Chip8)
    (h : Chip8.draw_body x y i s j = some t) :
    DrawFrame s t ∧
    (sprite_bit s i j = false → t = s) ∧
    (sprite_bit s i j = true →
      x + 7 ≤ 255 ∧ x + 7 - j < 64 ∧ y + i < 32 ∧
      (∀ a b : Nat, t.display.pix a b =
        if a = x + 7 - j ∧ b = y + i then (s.display.pix a b).flip
        else s.display.pix a b) ∧
      t.cpu.V 15 =
        (if s.display.pix (x + 7 - j) (y + i) = Color.White then 1
         else s.cpu.V 15)) := by
  rw [Chip8.draw_body] at h
  cases hc : chk16 (s.cpu.i + i) with
  | none => simp only [hc] at h; exact Option.noConfusion h
  | some addr =>
    simp only [hc] at h
    cases hread : s.memory.read addr with
    | none => simp only [hread] at h; exact Option.noConfusion h
    | some bb =>
      simp only [hread] at h
      have hsb : sprite_bit s i j = decide (bb &&& (1 <<< j) ≠ 0) := by
        simp only [sprite_bit, hc, hread]
      by_cases hbit : bb &&& (1 <<< j) ≠ 0
      · rw [if_pos hbit] at h
        cases hx7 : chk8 (x + 7) with
        | none => simp only [hx7] at h; exact Option.noConfusion h
        | some cx =>
          simp only [hx7] at h
          cases hyi : chk8 (y + i) with
          | none => simp only [hyi] at h; exact Option.noConfusion h
          | some cy =>
            simp only [hyi] at h
            cases hpix : s.display.set_pixel (cx - j) cy with
            | none => simp only [hpix] at h; exact Option.noConfusion h
            | some p =>
              obtain ⟨d2, hit⟩ := p
              simp only [hpix] at h
              injection h with h
              subst h
              obtain ⟨hx255, rfl⟩ := chk8_some _ _ hx7
              obtain ⟨hy255, rfl⟩ := chk8_some _ _ hyi
              obtain ⟨hcx64, hcy32, hpixrel, hflag⟩ :=
                set_pixel_some _ _ _ _ _ hpix
              refine ⟨⟨rfl, rfl, ?_, ?_, ?_, ?_, ?_⟩, ?_, ?_⟩
              · cases hit <;> rfl
              · cases hit <;> rfl
              · cases hit <;> rfl
              · cases hit <;> rfl
              · intro r hr
                cases hit
                · rfl
                · show (s.cpu.setV 15 1).V r = s.cpu.V r
                  rw [V_setV, if_neg (by omega)]
              · intro hfalse
                rw [hsb, decide_eq_false_iff_not] at hfalse
                exact absurd hbit hfalse
              · intro _
                refine ⟨hx255, hcx64, hcy32, hpixrel, ?_⟩
                rw [hflag] at *
                by_cases hwhite :
                    s.display.pix (x + 7 - j) (y + i) = Color.White
                · rw [if_pos hwhite]
                  have : decide (s.display.pix (x + 7 - j) (y + i)
                      = Color.White) = true := by rw [decide_eq_true_eq]; exact hwhite
                  rw [this]
                  show (s.cpu.setV 15 1).V 15 = 1
                  rw [V_setV, if_pos rfl]
                · rw [if_neg hwhite]
                  have : decide (s.display.pix (x + 7 - j) (y + i)
                      = Color.White) = false := by
                    rw [decide_eq_false_iff_not]; exact hwhite
                  rw [this]
                  rfl
      · rw [if_neg hbit] at h
        injection h with h
        subst h
        refine ⟨drawFrame_refl s, fun _ => rfl, fun htrue => ?_⟩
        rw [hsb, decide_eq_true_eq] at htrue
        exact absurd htrue hbit

/-- Does some bit `j` in `[j0, j0 + c)` of sprite row `i` target pixel
`(a, b)`?  (Mirrors the inner `for j in 0..8` loop.) -/
def rowTouch (s : Chip8) (x y i a b : Nat) : Nat → Nat → Bool
  | _, 0 => false
  | j0, c + 1 =>
    (sprite_bit s i j0 && (decide (a = x + 7 - j0) && decide (b = y + i))) ||
      rowTouch s x y i a b (j0 + 1) c

/-- Does some bit `j` in `[j0, j0 + c)` of sprite row `i` land on a pixel
that is currently set (`White`)?  That is the collision contribution of the
row, measured against the display of `s`. -/
def rowHit (s : Chip8) (x y i : Nat) : Nat → Nat → Bool
  | _, 0 => false
  | j0, c + 1 =>
    (sprite_bit s i j0 &&
      decide (s.display.pix (x + 7 - j0) (y + i) = Color.White)) ||
      rowHit s x y i (j0 + 1) c

/-- Same as `rowHit` with `White` replaced by `Black`: some bit of the row
lands on a currently unset pixel. -/
def rowMiss (s : Chip8) (x y i : Nat) : Nat → Nat → Bool
  | _, 0 => false
  | j0, c + 1 =>
    (sprite_bit s i j0 &&
      decide (s.display.pix (x + 7 - j0) (y + i) = Color.Black)) ||
      rowMiss s x y i (j0 + 1) c

/-- Does some bit of some sprite row `i` in `[i0, i0 + c)` target `(a, b)`? -/
def sTouch (s : Chip8) (x y a b : Nat) : Nat → Nat → Bool
  | _, 0 => false
  | i0, c + 1 => rowTouch s x y i0 a b 0 8 || sTouch s x y a b (i0 + 1) c

/-- Does the draw collide: some sprite bit lands on a set pixel? -/
def sHit (s : Chip8) (x y : Nat) : Nat → Nat → Bool
  | _, 0 => false
  | i0, c + 1 => rowHit s x y i0 0 8 || sHit s x y (i0 + 1) c

/-- Does some sprite bit land on an unset pixel? -/
def sMiss (s : Chip8) (x y : Nat) : Nat → Nat → Bool
  | _, 0 => false
  | i0, c + 1 => rowMiss s x y i0 0 8 || sMiss s x y (i0 + 1) c

theorem rowTouch_frame {s t : Chip8} (hm : t.memory = s.memory)
    (hi : t.cpu.i = s.cpu.i) (x y i a b : Nat) :
    ∀ (c j0 : Nat), rowTouch t x y i a b j0 c = rowTouch s x y i a b j0 c
  | 0, _ => rfl
  | c + 1, j0 => by
    simp only [rowTouch]
    rw [sprite_bit_frame hm hi, rowTouch_frame hm hi x y i a b c (j0 + 1)]

theorem sTouch_frame {s t : Chip8} (hm : t.memory = s.memory)
    (hi : t.cpu.i = s.cpu.i) (x y a b : Nat) :
    ∀ (c i0 : Nat), sTouch t x y a b i0 c = sTouch s x y a b i0 c
  | 0, _ => rfl
  | c + 1, i0 => by
    simp only [sTouch]
    rw [rowTouch_frame hm hi, sTouch_frame hm hi x y a b c (i0 + 1)]

theorem rowHit_congr (s t : Chip8) (x y i : Nat)
    (hbit : ∀ j, sprite_bit t i j = sprite_bit s i j) :
    ∀ (c j0 : Nat),
      (∀ j, j0 ≤ j → j < j0 + c →
        t.display.pix (x + 7 - j) (y + i) = s.display.pix (x + 7 - j) (y + i)) →
      rowHit t x y i j0 c = rowHit s x y i j0 c
  | 0, _, _ => rfl
  | c + 1, j0, hpix => by
    simp only [rowHit]
    rw [hbit j0, hpix j0 (Nat.le_refl _) (by omega),
      rowHit_congr s t x y i hbit c (j0 + 1)
        (fun j h1 h2 => hpix j (by omega) (by omega))]

theorem sHit_congr (s t : Chip8) (x y : Nat)
    (hbit : ∀ i j, sprite_bit t i j = sprite_bit s i j) :
    ∀ (c i0 : Nat),
      (∀ i j, i0 ≤ i → i < i0 + c → j < 8 →
        t.display.pix (x + 7 - j) (y + i) = s.display.pix (x + 7 - j) (y + i)) →
      sHit t x y i0 c = sHit s x y i0 c
  | 0, _, _ => rfl
  | c + 1, i0, hpix => by
    simp only [sHit]
    rw [rowHit_congr s t x y i0 (hbit i0) 8 0
        (fun j h1 h2 => hpix i0 j (Nat.le_refl _) (by omega) (by omega)),
      sHit_congr s t x y hbit c (i0 + 1)
        (fun i j h1 h2 h3 => hpix i j (by omega) (by omega) h3)]

theorem rowTouch_true (s : Chip8) (x y i a b : Nat) :
    ∀ (c j0 : Nat), rowTouch s x y i a b j0 c = true →
      ∃ j, j0 ≤ j ∧ j < j0 + c ∧ sprite_bit s i j = true ∧
        a = x + 7 - j ∧ b = y + i
  | 0, j0, h => by exact absurd h (by rw [rowTouch]; simp)
  | c + 1, j0, h => by
    rw [rowTouch, Bool.or_eq_true] at h
    cases h with
    | inl hh =>
      rw [Bool.and_eq_true, Bool.and_eq_true, decide_eq_true_eq,
        decide_eq_true_eq] at hh
      exact ⟨j0, Nat.le_refl _, by omega, hh.1, hh.2.1, hh.2.2⟩
    | inr hh =>
      obtain ⟨j, h1, h2, h3, h4, h5⟩ := rowTouch_true s x y i a b c (j0 + 1) hh
      exact ⟨j, by omega, by omega, h3, h4, h5⟩

theorem rowTouch_mem (s : Chip8) (x y i a b : Nat) :
    ∀ (c j0 j : Nat), j0 ≤ j → j < j0 + c → sprite_bit s i j = true →
      a = x + 7 - j → b = y + i → rowTouch s x y i a b j0 c = true
  | 0, j0, j, h1, h2, _, _, _ => by omega
  | c + 1, j0, j, h1, h2, h3, h4, h5 => by
    rw [rowTouch, Bool.or_eq_true]
    by_cases hj : j = j0
    · subst hj
      exact Or.inl (by rw [h3, h4, h5]; simp)
    · exact Or.inr (rowTouch_mem s x y i a b c (j0 + 1) j (by omega) (by omega)
        h3 h4 h5)

theorem sTouch_true (s : Chip8) (x y a b : Nat) :
    ∀ (c i0 : Nat), sTouch s x y a b i0 c = true →
      ∃ i, i0 ≤ i ∧ i < i0 + c ∧ rowTouch s x y i a b 0 8 = true
  | 0, i0, h => by exact absurd h (by rw [sTouch]; simp)
  | c + 1, i0, h => by
    rw [sTouch, Bool.or_eq_true] at h
    cases h with
    | inl hh => exact ⟨i0, Nat.le_refl _, by omega, hh⟩
    | inr hh =>
      obtain ⟨i, h1, h2, h3⟩ := sTouch_true s x y a b c (i0 + 1) hh
      exact ⟨i, by omega, by omega, h3⟩

theorem sTouch_mem (s : Chip8) (x y a b : Nat) :
    ∀ (c i0 i : Nat), i0 ≤ i → i < i0 + c → rowTouch s x y i a b 0 8 = true →
      sTouch s x y a b i0 c = true
  | 0, i0, i, h1, h2, _ => by omega
  | c + 1, i0, i, h1, h2, h3 => by
    rw [sTouch, Bool.or_eq_true]
    by_cases hi : i = i0
    · subst hi
      exact Or.inl h3
    · exact Or.inr (sTouch_mem s x y a b c (i0 + 1) i (by omega) (by omega) h3)

/-- Effect of the inner `for j in [j0, j0 + c)` draw loop. -/
theorem draw_row_go (x y i : Nat) (c : Nat) :
    ∀ (j0 : Nat) (s t : Chip8), j0 + c ≤ 8 →
      forLoop (Chip8.draw_body x y i) s j0 c = some t →
      DrawFrame s t ∧
      (∀ a b : Nat, t.display.pix a b =
        if rowTouch s x y i a b j0 c then (s.display.pix a b).flip
        else s.display.pix a b) ∧
      t.cpu.V 15 = (if rowHit s x y i j0 c then 1 else s.cpu.V 15) ∧
      (∀ j, j0 ≤ j → j < j0 + c → sprite_bit s i j = true →
        x + 7 ≤ 255 ∧ x + 7 - j < 64 ∧ y + i < 32) := by
  induction c with
  | zero =>
    intro j0 s t _ h
    rw [forLoop] at h
    injection h with h
    subst h
    refine ⟨drawFrame_refl s, ?_, ?_, ?_⟩
    · intro a b; simp [rowTouch]
    · simp [rowHit]
    · intro j h1 h2; omega
  | succ c ih =>
    intro j0 s t hle h
    rw [forLoop] at h
    cases hb : Chip8.draw_body x y i s j0 with
    | none => rw [hb] at h; exact Option.noConfusion h
    | some u =>
      simp only [hb] at h
      obtain ⟨hfr, hfalse, htrue⟩ := draw_body_some x y i j0 s u hb
      obtain ⟨ihfr, ihdisp, ihv, ihbnd⟩ := ih (j0 + 1) u t (by omega) h
      have hbitu : ∀ j, sprite_bit u i j = sprite_bit s i j :=
        fun j => sprite_bit_frame hfr.1 hfr.2.2.1 i j
      cases hsb : sprite_bit s i j0 with
      | false =>
        have hu : u = s := hfalse hsb
        subst hu
        refine ⟨ihfr, ?_, ?_, ?_⟩
        · intro a b
          rw [ihdisp a b]
          simp only [rowTouch, hsb]
          simp
        · rw [ihv]
          simp only [rowHit, hsb]
          simp
        · intro j h1 h2 hj
          by_cases hj0 : j = j0
          · subst hj0; rw [hj] at hsb; exact Bool.noConfusion hsb
          · exact ihbnd j (by omega) (by omega) hj
      | true =>
        obtain ⟨hx255, hcol, hrow, hdisp, hv15⟩ := htrue hsb
        have htouchu : ∀ a b c2 j1,
            rowTouch u x y i a b j1 c2 = rowTouch s x y i a b j1 c2 :=
          fun a b c2 j1 => rowTouch_frame hfr.1 hfr.2.2.1 x y i a b c2 j1
        have hpixu : ∀ j, j0 + 1 ≤ j → j < j0 + 1 + c →
            u.display.pix (x + 7 - j) (y + i) =
              s.display.pix (x + 7 - j) (y + i) := by
          intro j hj1 hj2
          rw [hdisp]
          rw [if_neg]
          rintro ⟨hcol2, -⟩
          omega
        refine ⟨drawFrame_trans hfr ihfr, ?_, ?_, ?_⟩
        · intro a b
          rw [ihdisp a b, htouchu a b c (j0 + 1)]
          simp only [hdisp a b]
          simp only [rowTouch, hsb, Bool.true_and]
          by_cases hP : a = x + 7 - j0 ∧ b = y + i
          · have htail : rowTouch s x y i a b (j0 + 1) c = false := by
              cases htc : rowTouch s x y i a b (j0 + 1) c with
              | false => rfl
              | true =>
                obtain ⟨j, hj1, hj2, _, haj, _⟩ :=
                  rowTouch_true s x y i a b c (j0 + 1) htc
                exact absurd (hP.1.symm.trans haj) (by omega)
            obtain ⟨ha2, hb2⟩ := hP
            subst ha2
            subst hb2
            rw [htail]
            simp
          · have hhead : (decide (a = x + 7 - j0) && decide (b = y + i))
                = false := by
              by_cases ha1 : a = x + 7 - j0
              · have hb1 : ¬b = y + i := fun hb2 => hP ⟨ha1, hb2⟩
                simp [hb1]
              · simp [ha1]
            rw [hhead, Bool.false_or]
            simp only [if_neg hP]
        · rw [ihv, rowHit_congr s u x y i hbitu c (j0 + 1) hpixu, hv15]
          simp only [rowHit, hsb, Bool.true_and]
          cases htc : rowHit s x y i (j0 + 1) c with
          | true => simp
          | false =>
            simp only [Bool.or_false]
            by_cases hw : s.display.pix (x + 7 - j0) (y + i) = Color.White
            · simp [hw]
            · simp [hw]
        · intro j h1 h2 hj
          by_cases hj0 : j = j0
          · subst hj0; exact ⟨hx255, hcol, hrow⟩
          · exact ihbnd j (by omega) (by omega) (by rw [hbitu]; exact hj)

/-- Effect of the outer `for i in [i0, i0 + c)` draw loop. -/
theorem draw_rows_go (x y : Nat) (c : Nat) :
    ∀ (i0 : Nat) (s t : Chip8),
      forLoop (Chip8.draw_row x y) s i0 c = some t →
      DrawFrame s t ∧
      (∀ a b : Nat, t.display.pix a b =
        if sTouch s x y a b i0 c then (s.display.pix a b).flip
        else s.display.pix a b) ∧
      t.cpu.V 15 = (if sHit s x y i0 c then 1 else s.cpu.V 15) ∧
      (∀ i j, i0 ≤ i → i < i0 + c → j < 8 → sprite_bit s i j = true →
        x + 7 ≤ 255 ∧ x + 7 - j < 64 ∧ y + i < 32) := by
  induction c with
  | zero =>
    intro i0 s t h
    rw [forLoop] at h
    injection h with h
    subst h
    refine ⟨drawFrame_refl s, ?_, ?_, ?_⟩
    · intro a b; simp [sTouch]
    · simp [sHit]
    · intro i j h1 h2; omega
  | succ c ih =>
    intro i0 s t h
    rw [forLoop] at h
    cases hb : Chip8.draw_row x y s i0 with
    | none => rw [hb] at h; exact Option.noConfusion h
    | some u =>
      simp only [hb] at h
      obtain ⟨hfr, hdisp, hv15, hbnd⟩ :=
        draw_row_go x y i0 8 0 s u (by omega) hb
      obtain ⟨ihfr, ihdisp, ihv, ihbnd⟩ := ih (i0 + 1) u t h
      have hbitu : ∀ i j, sprite_bit u i j = sprite_bit s i j :=
        fun i j => sprite_bit_frame hfr.1 hfr.2.2.1 i j
      have htouchu : ∀ a b c2 i1,
          sTouch u x y a b i1 c2 = sTouch s x y a b i1 c2 :=
        fun a b c2 i1 => sTouch_frame hfr.1 hfr.2.2.1 x y a b c2 i1
      have hrowb : ∀ (i a b : Nat), rowTouch s x y i a b 0 8 = true →
          b = y + i := by
        intro i a b hrt
        obtain ⟨j, _, _, _, _, hb5⟩ := rowTouch_true s x y i a b 8 0 hrt
        exact hb5
      have hpixu : ∀ i j, i0 + 1 ≤ i → i < i0 + 1 + c → j < 8 →
          u.display.pix (x + 7 - j) (y + i) =
            s.display.pix (x + 7 - j) (y + i) := by
        intro i j h1 h2 h3
        rw [hdisp]
        rw [if_neg]
        intro hrt
        have := hrowb i0 _ _ hrt
        omega
      refine ⟨drawFrame_trans hfr ihfr, ?_, ?_, ?_⟩
      · intro a b
        rw [ihdisp a b, htouchu a b c (i0 + 1)]
        simp only [hdisp a b]
        simp only [sTouch]
        by_cases hP : rowTouch s x y i0 a b 0 8 = true
        · have htail : sTouch s x y a b (i0 + 1) c = false := by
            cases htc : sTouch s x y a b (i0 + 1) c with
            | false => rfl
            | true =>
              obtain ⟨i, hi1, hi2, hrt⟩ := sTouch_true s x y a b c (i0 + 1) htc
              have hb1 := hrowb i0 a b hP
              have hb3 := hrowb i a b hrt
              omega
          simp only [htail, hP]
          simp
        · have hPf : rowTouch s x y i0 a b 0 8 = false := by
            revert hP
            cases rowTouch s x y i0 a b 0 8 <;> simp
          simp only [hPf]
          simp
      · rw [ihv, sHit_congr s u x y hbitu c (i0 + 1) hpixu, hv15]
        simp only [sHit]
        by_cases htc : sHit s x y (i0 + 1) c = true
        · simp only [htc]
          simp
        · have htf : sHit s x y (i0 + 1) c = false := by
            revert htc
            cases sHit s x y (i0 + 1) c <;> simp
          simp only [htf]
          simp
      · intro i j h1 h2 h3 hj
        by_cases hi0 : i = i0
        · subst hi0
          exact hbnd j (Nat.zero_le _) (by omega) hj
        · exact ihbnd i j (by omega) (by omega) h3 (by rw [hbitu]; exact hj)

/-- Full description of a successful `draw_sprite`: everything except the
display and `V[0xF]` is preserved; each pixel is XOR-toggled exactly when
some set sprite bit targets it; `V[0xF]` ends 1 exactly when some set bit
lands on a previously set pixel (and 0 otherwise, having been cleared
first); and every set bit lies in the grid. -/
theorem draw_sprite_spec (s t : Chip8) (x y n : Nat)
    (h : s.draw_sprite x y n = some t) :
    DrawFrame s t ∧
    (∀ a b : Nat, t.display.pix a b =
      if sTouch s x y a b 0 n then (s.display.pix a b).flip
      else s.display.pix a b) ∧
    t.cpu.V 15 = (if sHit s x y 0 n then 1 else 0) ∧
    (∀ i j, i < n → j < 8 → sprite_bit s i j = true →
      x + 7 ≤ 255 ∧ x + 7 - j < 64 ∧ y + i < 32) := by
  rw [Chip8.draw_sprite] at h
  obtain ⟨hfr, hdisp, hv15, hbnd⟩ :=
    draw_rows_go x y n 0 { s with cpu := s.cpu.setV 15 0 } t h
  have hm : ({ s with cpu := s.cpu.setV 15 0 } : Chip8).memory = s.memory := rfl
  have hi : ({ s with cpu := s.cpu.setV 15 0 } : Chip8).cpu.i = s.cpu.i := rfl
  have hbit0 : ∀ i j,
      sprite_bit { s with cpu := s.cpu.setV 15 0 } i j = sprite_bit s i j :=
    fun i j => sprite_bit_frame hm hi i j
  have hfr0 : DrawFrame s { s with cpu := s.cpu.setV 15 0 } := by
    refine ⟨rfl, rfl, rfl, rfl, rfl, rfl, fun r hr => ?_⟩
    show (s.cpu.setV 15 0).V r = s.cpu.V r
    rw [V_setV, if_neg (by omega)]
  have hv0 : ({ s with cpu := s.cpu.setV 15 0 } : Chip8).cpu.V 15 = 0 := by
    show (s.cpu.setV 15 0).V 15 = 0
    rw [V_setV, if_pos rfl]
  refine ⟨drawFrame_trans hfr0 hfr, ?_, ?_, ?_⟩
  · intro a b
    rw [hdisp a b, sTouch_frame hm hi x y a b n 0]
  · rw [hv15, sHit_congr s { s with cpu := s.cpu.setV 15 0 } x y hbit0 n 0
      (fun _ _ _ _ _ => rfl), hv0]
  · intro i j h1 h2 h3
    exact hbnd i j (Nat.zero_le _) (by omega) h2 (by rw [hbit0]; exact h3)

/-! ## C10: no clipping — a draw touching an off-grid pixel panics -/

/-- A fresh machine with one sprite byte 0x01 at address 0 and `I = 0`
(bit 0 set: the drawn column is `x + 7`). -/
def cOob : Chip8 := { Chip8.new with memory := Chip8.new.memory.set 0 1 }

/-- C10.  `set_pixel` succeeds exactly on the 64×32 grid, and `draw_sprite`
reaches its panic branch (no result state) whenever some set sprite bit
targets a coordinate outside the grid — including the checked `u8` overflow
of `x + 7`.  There is no clipping and no wrap-around. -/
theorem draw_requires_in_grid :
    (∀ (d : Display) (a b : Nat),
      (d.set_pixel a b).isSome = true ↔ (a < 64 ∧ b < 32)) ∧
    (∀ (s : Chip8) (x y n i j : Nat), i < n → j < 8 →
      sprite_bit s i j = true →
      (255 < x + 7 ∨ 63 < x + 7 - j ∨ 31 < y + i) →
      s.draw_sprite x y n = none) := by
  constructor
  · intro d a b
    rw [Display.set_pixel]
    split
    case isTrue hb => simpa using hb
    case isFalse hb => simpa using hb
  · intro s x y n i j hi hj hbit hout
    cases hres : s.draw_sprite x y n with
    | none => rfl
    | some t =>
      obtain ⟨-, -, -, hbnd⟩ := draw_sprite_spec s t x y n hres
      obtain ⟨h1, h2, h3⟩ := hbnd i j hi hj hbit
      omega

/-- C10 (witness): drawing the one-bit sprite of `cOob` at `x = 60` targets
column 67 and panics. -/
theorem draw_requires_in_grid_example :
    Chip8.draw_sprite cOob 60 0 1 = none :=
  draw_requires_in_grid.2 cOob 60 0 1 0 0 (by decide) (by decide) rfl
    (by decide)

/-! ## C4: drawing the same sprite twice -/

theorem Color.flip_flip (c : Color) : c.flip.flip = c := by
  cases c <;> rfl

theorem flip_white_iff (c : Color) :
    (c.flip = Color.White) = (c = Color.Black) := by
  cases c <;> simp [Color.flip]

/-- After one draw, a sprite bit hits a set pixel exactly when it
originally targeted an unset pixel: the inner-row version. -/
theorem rowHit_flip (s t1 : Chip8) (x y n : Nat)
    (hbit : ∀ i j, sprite_bit t1 i j = sprite_bit s i j)
    (hpix : ∀ a b : Nat, t1.display.pix a b =
      if sTouch s x y a b 0 n then (s.display.pix a b).flip
      else s.display.pix a b)
    (i : Nat) (hi : i < n) :
    ∀ (c j0 : Nat), j0 + c ≤ 8 →
      rowHit t1 x y i j0 c = rowMiss s x y i j0 c
  | 0, _, _ => rfl
  | c + 1, j0, hle => by
    simp only [rowHit, rowMiss]
    rw [hbit i j0,
      rowHit_flip s t1 x y n hbit hpix i hi c (j0 + 1) (by omega)]
    cases hsb : sprite_bit s i j0 with
    | false => rfl
    | true =>
      have htch : sTouch s x y (x + 7 - j0) (y + i) 0 n = true :=
        sTouch_mem s x y (x + 7 - j0) (y + i) n 0 i (Nat.zero_le _)
          (by omega)
          (rowTouch_mem s x y i (x + 7 - j0) (y + i) 8 0 j0 (Nat.zero_le _)
            (by omega) hsb rfl rfl)
      rw [hpix (x + 7 - j0) (y + i)]
      simp only [htch]
      simp [flip_white_iff]
  termination_by c _ _ => c

/-- After one draw, the collision test of a second identical draw equals
the some-bit-on-unset-pixel test against the original display. -/
theorem sHit_flip (s t1 : Chip8) (x y n : Nat)
    (hbit : ∀ i j, sprite_bit t1 i j = sprite_bit s i j)
    (hpix : ∀ a b : Nat, t1.display.pix a b =
      if sTouch s x y a b 0 n then (s.display.pix a b).flip
      else s.display.pix a b) :
    ∀ (c i0 : Nat), i0 + c ≤ n →
      sHit t1 x y i0 c = sMiss s x y i0 c
  | 0, _, _ => rfl
  | c + 1, i0, hle => by
    simp only [sHit, sMiss]
    rw [rowHit_flip s t1 x y n hbit hpix i0 (by omega) 8 0 (by omega),
      sHit_flip s t1 x y n hbit hpix c (i0 + 1) (by omega)]
  termination_by c _ _ => c

theorem display_ext_pix (d1 d2 : Display)
    (h : ∀ a b : Nat, d1.pix a b = d2.pix a b) : d1 = d2 := by
  obtain ⟨g1⟩ := d1
  obtain ⟨g2⟩ := d2
  congr 1
  funext a b
  have h2 := h a.val b.val
  simpa [Display.pix, a.isLt, b.isLt] using h2

/-- C4 (amended).  When the same sprite is drawn twice in a row (both draws
completing), the display is restored exactly; the collision flag left by
the second draw is 1 precisely when some set sprite bit targets a pixel
that was unset before the first draw (unlike the claim, this is not the
first draw flag, which tests for originally set pixels). -/
theorem draw_twice (s t1 t2 : Chip8) (x y n : Nat)
    (h1 : s.draw_sprite x y n = some t1)
    (h2 : t1.draw_sprite x y n = some t2) :
    t2.display = s.display ∧
    t2.cpu.V 15 = (if sMiss s x y 0 n then 1 else 0) := by
  obtain ⟨hfr1, hdisp1, hv1, hbnd1⟩ := draw_sprite_spec s t1 x y n h1
  obtain ⟨hfr2, hdisp2, hv2, hbnd2⟩ := draw_sprite_spec t1 t2 x y n h2
  have hbit : ∀ i j, sprite_bit t1 i j = sprite_bit s i j :=
    fun i j => sprite_bit_frame hfr1.1 hfr1.2.2.1 i j
  have htch : ∀ a b c2 i1, sTouch t1 x y a b i1 c2 = sTouch s x y a b i1 c2 :=
    fun a b c2 i1 => sTouch_frame hfr1.1 hfr1.2.2.1 x y a b c2 i1
  constructor
  · apply display_ext_pix
    intro a b
    rw [hdisp2 a b, htch a b n 0, hdisp1 a b]
    by_cases hT : sTouch s x y a b 0 n = true
    · simp only [hT]
      simp [Color.flip_flip]
    · have hTf : sTouch s x y a b 0 n = false := by
        revert hT
        cases sTouch s x y a b 0 n <;> simp
      simp only [hTf]
      simp
  · rw [hv2, sHit_flip s t1 x y n hbit hdisp1 n 0 (by omega)]

/-- A fresh machine with one sprite byte 0x80 at address 0 and `I = 0`: a
single set bit (bit 7), drawn at column `x`, row `y`. -/
def exDraw : Chip8 := { Chip8.new with memory := Chip8.new.memory.set 0 0x80 }

/-- C4 (counterexample).  Drawing the one-bit sprite of `exDraw` at (0, 0)
on the empty display leaves collision flag 0 (the pixel was turned on);
drawing it again at the same spot leaves flag 1 (the pixel was turned back
off).  The flags of the two draws differ, contradicting the claim that the
second flag always equals the first. -/
theorem draw_twice_flag_cex :
    ((Chip8.draw_sprite exDraw 0 0 1).map fun t => t.cpu.V 15) = some 0 ∧
    (((Chip8.draw_sprite exDraw 0 0 1).bind fun t =>
        Chip8.draw_sprite t 0 0 1).map fun t => t.cpu.V 15) = some 1 :=
  ⟨rfl, rfl⟩

def exD1 : Chip8 := (Chip8.draw_sprite exDraw 0 0 1).getD exDraw

def exD2 : Chip8 := (Chip8.draw_sprite exD1 0 0 1).getD exDraw

/-- C4 (witness): the amended double-draw theorem on the concrete machine
`exDraw`. -/
theorem draw_twice_example :
    exD2.display = exDraw.display ∧
    exD2.cpu.V 15 = (if sMiss exDraw 0 0 0 1 then 1 else 0) :=
  draw_twice exDraw exD1 exD2 0 0 1 rfl rfl

end Chip8R
